import Mathlib

/-!
Verification development for the devflow execution engine.

The definitions below are shallow embeddings of the TypeScript sources:
the task scheduler (`TaskExecutor.executeParallelTasks`), the per-task
runner (`executeTask` in its two in-repo variants), the retry wrapper
(`retryOperation`), the health gate (`HealthChecker.waitForService`),
the cleanup coordinator (`CleanupManager`), and the container log
transcoder (`LogStreamer.processChunk`).

JavaScript objects used as string maps are modelled as insertion-ordered
association lists where a later binding overrides an earlier one, which
matches the semantics of object spread and `Object.assign`.
-/

namespace Devflow

/-- A JavaScript object used as a string-to-string map.  Later bindings
override earlier ones, as with object spread. -/
def Obj : Type := List (String × String)

instance : DecidableEq Obj := inferInstanceAs (DecidableEq (List (String × String)))

instance : Append Obj := inferInstanceAs (Append (List (String × String)))

instance : EmptyCollection Obj := ⟨([] : List (String × String))⟩

/-- Property lookup: the last binding for a key wins, matching the fact
that a later spread overrides an earlier one. -/
def Obj.get (o : Obj) (k : String) : Option String :=
  ((List.reverse o).find? (fun p => decide (p.1 = k))).map Prod.snd

/-- The spread of two objects: all bindings of the first followed by all
bindings of the second, so the second overrides the first on lookup. -/
def Obj.spread (a b : Obj) : Obj := List.append a b

namespace EnvLoader

/-- `EnvLoader.mergeEnv(...sources)` from `src/utils/env.ts`:
`Object.assign` of the sources onto a fresh object, so later sources
override earlier ones. -/
def mergeEnv (sources : List Obj) : Obj := sources.foldl Obj.spread {}

end EnvLoader

/-- Lookup distributes over spread: the right object is consulted first. -/
theorem Obj.get_spread (a b : Obj) (k : String) :
    Obj.get (Obj.spread a b) k = ((Obj.get b k).orElse (fun _ => Obj.get a k)) := by
  unfold Obj.get Obj.spread
  rw [show List.append a b = a ++ b from rfl, List.reverse_append, List.find?_append]
  cases h : List.find? (fun p => decide (p.1 = k)) (List.reverse b) with
  | none => simp [Option.orElse]
  | some v => simp [Option.orElse]

/-- A task as defined in `src/types` (`config.ts`): name, kind tag,
kind-specific fields, env sources, dependencies and the parallel flag. -/
structure Task where
  name : String
  type : String
  command : Option String := none
  image : Option String := none
  container_name : Option String := none
  env : Obj := {}
  env_file : Option String := none
  parallel : Bool := false
  depends_on : List String := []
deriving DecidableEq

/-- The per-run execution context (`ExecutionContext` in `src/types`).
The config, workflow name and logger fields are collaborators that do
not influence the verified logic and are omitted. -/
structure ExecutionContext where
  env : Obj := {}
  cwd : String := ""
  dryRun : Bool := false
deriving DecidableEq

namespace TaskExecutor

/-!
`TaskExecutor.executeParallelTasks` (identical in both in-repo executor
variants).  One round of the recursive `executeTasks` closure scans the
dependency graph in task order and dispatches every task that is neither
completed nor in flight and whose dependencies are all completed.  The
scan is synchronous, so the dispatched set of a round is determined by
the `completed` set at round entry; `completed` is extended only by the
continuation of a successfully resolved task, and a failed task makes
the round throw before the next scan, so at every scan `inProgress` is
empty.  The embedding below therefore models a round as a pure function
of `completed`, with the outcome of each task given by a `success`
predicate (a rejected task promise is caught and mapped to `false`,
exactly like a resolved `false`).
-/

/-- The tasks dispatched in one round: not yet completed, and every
dependency completed. -/
def executableOf (tasks : List Task) (completed : List String) : List Task :=
  tasks.filter (fun t =>
    decide (t.name ∉ completed) && decide (∀ d ∈ t.depends_on, d ∈ completed))

/-- The payload of the deadlock error: every task not yet completed,
paired with its still-unmet dependencies. -/
def deadlockList (tasks : List Task) (completed : List String) :
    List (String × List String) :=
  (tasks.filter (fun t => decide (t.name ∉ completed))).map
    (fun t => (t.name, t.depends_on.filter (fun d => decide (d ∉ completed))))

/-- Outcome of the parallel execution loop. -/
inductive SchedOutcome where
  /-- All tasks resolved. -/
  | ok : SchedOutcome
  /-- `One or more parallel tasks failed` was thrown. -/
  | tasksFailed : SchedOutcome
  /-- `Deadlock detected` was thrown with the given task/unmet-deps list. -/
  | deadlock (unmet : List (String × List String)) : SchedOutcome
  /-- Fuel exhausted; unreachable for the fuel used by the entry point. -/
  | outOfFuel : SchedOutcome
deriving DecidableEq

/-- Result of the loop: outcome plus the trace of dispatched waves
(task names, in dispatch order). -/
structure SchedResult where
  outcome : SchedOutcome
  waves : List (List String)
deriving DecidableEq

/-- The recursive `executeTasks` closure, with explicit fuel standing in
for the recursion. -/
def runRounds (success : String → Bool) (tasks : List Task) :
    Nat → List String → SchedResult
  | 0, _ => ⟨.outOfFuel, []⟩
  | fuel + 1, completed =>
    let exec := executableOf tasks completed
    if exec = [] then
      if completed.length < tasks.length then
        ⟨.deadlock (deadlockList tasks completed), []⟩
      else ⟨.ok, []⟩
    else
      let wave := exec.map Task.name
      if ∀ nm ∈ wave, success nm = true then
        let completed' := completed ++ wave
        if completed'.length < tasks.length then
          let r := runRounds success tasks fuel completed'
          ⟨r.outcome, wave :: r.waves⟩
        else ⟨.ok, [wave]⟩
      else ⟨.tasksFailed, [wave]⟩

/-- `executeParallelTasks`: run the round loop from an empty completed
set.  `tasks.length + 1` rounds always suffice, because every recursive
call strictly grows the completed set. -/
def executeParallelTasks (success : String → Bool) (tasks : List Task) : SchedResult :=
  runRounds success tasks (tasks.length + 1) []

theorem mem_executableOf {tasks : List Task} {completed : List String} {t : Task} :
    t ∈ executableOf tasks completed ↔
      t ∈ tasks ∧ t.name ∉ completed ∧ ∀ d ∈ t.depends_on, d ∈ completed := by
  simp [executableOf, List.mem_filter, and_assoc]

/-- If some task is still unresolved and the dependency relation is
ranked (acyclic with all dependencies naming real tasks), the ready set
is nonempty: an unresolved task of minimal rank has all its
dependencies completed. -/
theorem executableOf_ne_nil (tasks : List Task) (completed : List String)
    (rank : String → Nat)
    (hdeps : ∀ t ∈ tasks, ∀ d ∈ t.depends_on,
      (∃ u ∈ tasks, u.name = d) ∧ rank d < rank t.name)
    (t0 : Task) (ht0 : t0 ∈ tasks) (ht0c : t0.name ∉ completed) :
    executableOf tasks completed ≠ [] := by
  intro hempty
  have key : ∀ n, ∀ t ∈ tasks, t.name ∉ completed → rank t.name < n → False := by
    intro n
    induction n with
    | zero => intro t _ _ hlt; exact absurd hlt (Nat.not_lt_zero _)
    | succ n ih =>
      intro t ht htc hlt
      have hnotall : ¬ ∀ d ∈ t.depends_on, d ∈ completed := by
        intro hall
        have hmem : t ∈ executableOf tasks completed :=
          mem_executableOf.2 ⟨ht, htc, hall⟩
        rw [hempty] at hmem
        exact absurd hmem (List.not_mem_nil t)
      push_neg at hnotall
      obtain ⟨d, hd, hdc⟩ := hnotall
      obtain ⟨⟨u, hu, hun⟩, hrk⟩ := hdeps t ht d hd
      refine ih u hu ?_ ?_
      · rw [hun]; exact hdc
      · rw [hun]; omega
  exact key (rank t0.name + 1) t0 ht0 ht0c (Nat.lt_succ_self _)

/-- One unfolding of the round loop. -/
theorem runRounds_step (success : String → Bool) (tasks : List Task)
    (fuel : Nat) (completed : List String) :
    runRounds success tasks (fuel + 1) completed =
      if executableOf tasks completed = [] then
        if completed.length < tasks.length then
          ⟨.deadlock (deadlockList tasks completed), []⟩
        else ⟨.ok, []⟩
      else
        if ∀ nm ∈ (executableOf tasks completed).map Task.name, success nm = true then
          if (completed ++ (executableOf tasks completed).map Task.name).length
              < tasks.length then
            ⟨(runRounds success tasks fuel
                (completed ++ (executableOf tasks completed).map Task.name)).outcome,
              (executableOf tasks completed).map Task.name ::
                (runRounds success tasks fuel
                  (completed ++ (executableOf tasks completed).map Task.name)).waves⟩
          else ⟨.ok, [(executableOf tasks completed).map Task.name]⟩
        else ⟨.tasksFailed, [(executableOf tasks completed).map Task.name]⟩ := rfl

theorem runRounds_outcome_step (success : String → Bool) (tasks : List Task)
    (fuel : Nat) (completed : List String) :
    (runRounds success tasks (fuel + 1) completed).outcome =
      if executableOf tasks completed = [] then
        if completed.length < tasks.length then
          .deadlock (deadlockList tasks completed)
        else .ok
      else
        if ∀ nm ∈ (executableOf tasks completed).map Task.name, success nm = true then
          if (completed ++ (executableOf tasks completed).map Task.name).length
              < tasks.length then
            (runRounds success tasks fuel
              (completed ++ (executableOf tasks completed).map Task.name)).outcome
          else .ok
        else .tasksFailed := by
  rw [runRounds_step]; split_ifs <;> rfl

theorem runRounds_waves_step (success : String → Bool) (tasks : List Task)
    (fuel : Nat) (completed : List String) :
    (runRounds success tasks (fuel + 1) completed).waves =
      if executableOf tasks completed = [] then []
      else
        if ∀ nm ∈ (executableOf tasks completed).map Task.name, success nm = true then
          if (completed ++ (executableOf tasks completed).map Task.name).length
              < tasks.length then
            (executableOf tasks completed).map Task.name ::
              (runRounds success tasks fuel
                (completed ++ (executableOf tasks completed).map Task.name)).waves
          else [(executableOf tasks completed).map Task.name]
        else [(executableOf tasks completed).map Task.name] := by
  rw [runRounds_step]; split_ifs <;> rfl

theorem runRounds_deadlock_eq (success : String → Bool) (tasks : List Task) :
    ∀ fuel completed unmet,
      (runRounds success tasks fuel completed).outcome = .deadlock unmet →
      unmet = deadlockList tasks
        (completed ++ (runRounds success tasks fuel completed).waves.flatten) := by
  intro fuel
  induction fuel with
  | zero => intro completed unmet h; simp [runRounds] at h
  | succ fuel ih =>
    intro completed unmet h
    rw [runRounds_outcome_step] at h
    rw [runRounds_waves_step]
    by_cases h1 : executableOf tasks completed = []
    · rw [if_pos h1] at h ⊢
      by_cases h2 : completed.length < tasks.length
      · rw [if_pos h2] at h
        simp only [SchedOutcome.deadlock.injEq] at h
        subst h
        simp
      · rw [if_neg h2] at h
        exact absurd h (by simp)
    · rw [if_neg h1] at h ⊢
      by_cases h3 : ∀ nm ∈ (executableOf tasks completed).map Task.name, success nm = true
      · rw [if_pos h3] at h ⊢
        by_cases h4 : (completed ++ (executableOf tasks completed).map Task.name).length
            < tasks.length
        · rw [if_pos h4] at h ⊢
          rw [List.flatten_cons, ← List.append_assoc]
          exact ih _ _ h
        · rw [if_neg h4] at h
          exact absurd h (by simp)
      · rw [if_neg h3] at h
        exact absurd h (by simp)

/-- Every dispatched wave is exactly the ready set computed from the
names completed before it. -/
theorem runRounds_waves_exec (success : String → Bool) (tasks : List Task) :
    ∀ fuel completed i wave,
      (runRounds success tasks fuel completed).waves[i]? = some wave →
      wave = (executableOf tasks
          (completed ++
            ((runRounds success tasks fuel completed).waves.take i).flatten)).map
          Task.name := by
  intro fuel
  induction fuel with
  | zero => intro completed i wave h; simp [runRounds] at h
  | succ fuel ih =>
    intro completed i wave h
    rw [runRounds_waves_step] at h ⊢
    by_cases h1 : executableOf tasks completed = []
    · rw [if_pos h1] at h; simp at h
    · rw [if_neg h1] at h ⊢
      by_cases h3 : ∀ nm ∈ (executableOf tasks completed).map Task.name, success nm = true
      · rw [if_pos h3] at h ⊢
        by_cases h4 : (completed ++ (executableOf tasks completed).map Task.name).length
            < tasks.length
        · rw [if_pos h4] at h ⊢
          cases i with
          | zero =>
            simp only [List.getElem?_cons_zero, Option.some.injEq] at h
            simp [← h]
          | succ i =>
            rw [List.getElem?_cons_succ] at h
            rw [ih _ i wave h]
            simp [List.take_succ_cons, List.flatten_cons, List.append_assoc]
        · rw [if_neg h4] at h ⊢
          cases i with
          | zero =>
            simp only [List.getElem?_cons_zero, Option.some.injEq] at h
            simp [← h]
          | succ i => simp at h
      · rw [if_neg h3] at h ⊢
        cases i with
        | zero =>
          simp only [List.getElem?_cons_zero, Option.some.injEq] at h
          simp [← h]
        | succ i => simp at h

/-- Every wave other than the final one consisted wholly of successful
tasks: the loop recurses only after an all-success round. -/
theorem runRounds_nonlast_success (success : String → Bool) (tasks : List Task) :
    ∀ fuel completed j wave,
      (runRounds success tasks fuel completed).waves[j]? = some wave →
      j + 1 < (runRounds success tasks fuel completed).waves.length →
      ∀ nm ∈ wave, success nm = true := by
  intro fuel
  induction fuel with
  | zero => intro completed j wave h; simp [runRounds] at h
  | succ fuel ih =>
    intro completed j wave h hj1
    rw [runRounds_waves_step] at h hj1
    by_cases h1 : executableOf tasks completed = []
    · rw [if_pos h1] at h; simp at h
    · rw [if_neg h1] at h hj1
      by_cases h3 : ∀ nm ∈ (executableOf tasks completed).map Task.name, success nm = true
      · rw [if_pos h3] at h hj1
        by_cases h4 : (completed ++ (executableOf tasks completed).map Task.name).length
            < tasks.length
        · rw [if_pos h4] at h hj1
          cases j with
          | zero =>
            simp only [List.getElem?_cons_zero, Option.some.injEq] at h
            intro nm hnm
            exact h3 nm (h ▸ hnm)
          | succ j =>
            rw [List.getElem?_cons_succ] at h
            exact ih _ j wave h (by simpa using hj1)
        · rw [if_neg h4] at hj1
          simp at hj1
      · rw [if_neg h3] at hj1
        simp at hj1

/-- With a ranked (acyclic, fully-resolvable) dependency graph and every
task succeeding, the loop terminates with `ok` and the dispatched names,
together with the initially completed ones, cover every task exactly
once. -/
theorem runRounds_complete (success : String → Bool) (tasks : List Task)
    (rank : String → Nat)
    (hnodup : (tasks.map Task.name).Nodup)
    (hdeps : ∀ t ∈ tasks, ∀ d ∈ t.depends_on,
      (∃ u ∈ tasks, u.name = d) ∧ rank d < rank t.name)
    (hsucc : ∀ nm, success nm = true) :
    ∀ fuel completed,
      completed.Nodup →
      (∀ nm ∈ completed, nm ∈ tasks.map Task.name) →
      tasks.length - completed.length < fuel →
      (runRounds success tasks fuel completed).outcome = .ok ∧
      (completed ++ (runRounds success tasks fuel completed).waves.flatten).Nodup ∧
      ∀ t ∈ tasks,
        t.name ∈ completed ++ (runRounds success tasks fuel completed).waves.flatten := by
  intro fuel
  induction fuel with
  | zero => intro completed _ _ h3; omega
  | succ fuel ih =>
    intro completed hnd hsub hfuel
    rw [runRounds_outcome_step, runRounds_waves_step]
    by_cases h1 : executableOf tasks completed = []
    · have hcover : ∀ t ∈ tasks, t.name ∈ completed := by
        intro t ht
        by_contra htc
        exact executableOf_ne_nil tasks completed rank hdeps t ht htc h1
      have hlen : tasks.length ≤ completed.length := by
        have hsubn : tasks.map Task.name ⊆ completed := by
          intro nm hnm
          obtain ⟨t, ht, rfl⟩ := List.mem_map.1 hnm
          exact hcover t ht
        have := (List.subperm_of_subset hnodup hsubn).length_le
        simpa using this
      have h2 : ¬ completed.length < tasks.length := by omega
      rw [if_pos h1, if_pos h1, if_neg h2]
      refine ⟨rfl, by simpa using hnd, ?_⟩
      intro t ht
      simp [hcover t ht]
    · have h3 : ∀ nm ∈ (executableOf tasks completed).map Task.name, success nm = true :=
        fun nm _ => hsucc nm
      rw [if_neg h1, if_neg h1, if_pos h3, if_pos h3]
      have hwsub : (executableOf tasks completed).map Task.name ⊆ tasks.map Task.name := by
        intro nm hnm
        obtain ⟨t, ht, rfl⟩ := List.mem_map.1 hnm
        exact List.mem_map_of_mem _ (mem_executableOf.1 ht).1
      have hwnd : ((executableOf tasks completed).map Task.name).Nodup := by
        have hsl : List.Sublist (executableOf tasks completed) tasks :=
          List.filter_sublist tasks
        exact hnodup.sublist (hsl.map Task.name)
      have hwdisj : List.Disjoint completed ((executableOf tasks completed).map Task.name) := by
        intro nm hnm hw
        obtain ⟨t, ht, rfl⟩ := List.mem_map.1 hw
        exact (mem_executableOf.1 ht).2.1 hnm
      have hnd' : (completed ++ (executableOf tasks completed).map Task.name).Nodup := by
        rw [List.nodup_append]
        exact ⟨hnd, hwnd, hwdisj⟩
      have hsub' : ∀ nm ∈ completed ++ (executableOf tasks completed).map Task.name,
          nm ∈ tasks.map Task.name := by
        intro nm hnm
        rcases List.mem_append.1 hnm with h | h
        · exact hsub nm h
        · exact hwsub h
      have hwne : (executableOf tasks completed).map Task.name ≠ [] := by
        intro hw
        exact h1 (List.map_eq_nil_iff.1 hw)
      have hwlen : 1 ≤ ((executableOf tasks completed).map Task.name).length := by
        cases wq : (executableOf tasks completed).map Task.name with
        | nil => exact absurd wq hwne
        | cons a l => simp
      by_cases h4 : (completed ++ (executableOf tasks completed).map Task.name).length
          < tasks.length
      · rw [if_pos h4, if_pos h4]
        have hfuel' : tasks.length -
            (completed ++ (executableOf tasks completed).map Task.name).length < fuel := by
          rw [List.length_append] at h4 ⊢
          omega
        obtain ⟨hok, hnd2, hcov2⟩ := ih _ hnd' hsub' hfuel'
        refine ⟨hok, ?_, ?_⟩
        · rw [List.flatten_cons, ← List.append_assoc]
          exact hnd2
        · intro t ht
          rw [List.flatten_cons, ← List.append_assoc]
          exact hcov2 t ht
      · rw [if_neg h4, if_neg h4]
        have hsp := List.subperm_of_subset hnd' hsub'
        have hperm := hsp.perm_of_length_le (by simpa using Nat.le_of_not_lt h4)
        refine ⟨rfl, by simpa using hnd', ?_⟩
        intro t ht
        have hmem : t.name ∈ tasks.map Task.name := List.mem_map_of_mem _ ht
        have := hperm.mem_iff.2 hmem
        simpa using this

theorem mem_deadlockList_of (tasks : List Task) (C : List String) (t : Task)
    (ht : t ∈ tasks) (htn : t.name ∉ C) :
    (t.name, t.depends_on.filter (fun d => decide (d ∉ C))) ∈ deadlockList tasks C := by
  unfold deadlockList
  exact List.mem_map_of_mem _ (List.mem_filter.2 ⟨ht, by simpa using htn⟩)

theorem deadlockList_fst (tasks : List Task) (C : List String)
    (p : String × List String) (hp : p ∈ deadlockList tasks C) : p.1 ∉ C := by
  unfold deadlockList at hp
  obtain ⟨t, ht, rfl⟩ := List.mem_map.1 hp
  have := (List.mem_filter.1 ht).2
  simpa using this

/-- Dispatch safety: a name dispatched in some wave belongs to a task of
the workflow all of whose dependencies were dispatched in strictly
earlier waves and succeeded — a dependent never starts before all of its
dependencies have succeeded. -/
def DispatchSafe (success : String → Bool) (tasks : List Task) : Prop :=
  ∀ i wave, (executeParallelTasks success tasks).waves[i]? = some wave →
    ∀ nm ∈ wave, ∃ t, t ∈ tasks ∧ t.name = nm ∧
      ∀ d ∈ t.depends_on,
        d ∈ ((executeParallelTasks success tasks).waves.take i).flatten ∧
        success d = true

theorem dispatchSafe_holds (success : String → Bool) (tasks : List Task) :
    DispatchSafe success tasks := by
  intro i wave hw nm hnm
  rw [show executeParallelTasks success tasks
    = runRounds success tasks (tasks.length + 1) [] from rfl] at hw ⊢
  have hwave := runRounds_waves_exec success tasks (tasks.length + 1) [] i wave hw
  rw [hwave] at hnm
  obtain ⟨t, ht, rfl⟩ := List.mem_map.1 hnm
  have hmem := mem_executableOf.1 ht
  refine ⟨t, hmem.1, rfl, ?_⟩
  intro d hd
  have hdc := hmem.2.2 d hd
  simp only [List.nil_append] at hdc
  refine ⟨hdc, ?_⟩
  obtain ⟨w, hwmem, hdw⟩ := List.mem_flatten.1 hdc
  obtain ⟨j, hj⟩ := List.mem_iff_getElem?.1 hwmem
  have hji : j < i := by
    by_contra hge
    rw [List.getElem?_take_eq_none (Nat.le_of_not_lt hge)] at hj
    simp at hj
  rw [List.getElem?_take, if_pos hji] at hj
  have hlen : i < (runRounds success tasks (tasks.length + 1) []).waves.length := by
    by_contra hge
    rw [List.getElem?_eq_none (Nat.le_of_not_lt hge)] at hw
    simp at hw
  exact runRounds_nonlast_success success tasks (tasks.length + 1) [] j w hj
    (by omega) d hdw

/-- C1: for every workflow whose dependency graph is acyclic (witnessed
by a rank function under which every dependency names a task of strictly
smaller rank), the parallel execution loop dispatches a task only after
every task in its `depends_on` set was dispatched in an earlier wave and
succeeded; and when every task succeeds, the loop finishes with `ok`
having invoked every task exactly once. -/
theorem executeParallelTasks_acyclic_each_task_once
    (tasks : List Task) (success : String → Bool) (rank : String → Nat)
    (hnodup : (tasks.map Task.name).Nodup)
    (hdeps : ∀ t ∈ tasks, ∀ d ∈ t.depends_on,
      (∃ u ∈ tasks, u.name = d) ∧ rank d < rank t.name) :
    DispatchSafe success tasks ∧
    ((∀ nm, success nm = true) →
      (executeParallelTasks success tasks).outcome = .ok ∧
      ∀ t ∈ tasks, (executeParallelTasks success tasks).waves.flatten.count t.name = 1) := by
  refine ⟨dispatchSafe_holds success tasks, ?_⟩
  intro hsucc
  have h := runRounds_complete success tasks rank hnodup hdeps hsucc
    (tasks.length + 1) [] (by simp) (by simp) (by omega)
  obtain ⟨hok, hnd, hcov⟩ := h
  simp only [List.nil_append] at hnd hcov
  refine ⟨hok, ?_⟩
  intro t ht
  exact List.count_eq_one_of_mem hnd (hcov t ht)

/-- C2: whenever the loop fails with the deadlock error, the reported
list names exactly the unresolved tasks, each with its still-unmet
dependencies, and none of the reported tasks was ever dispatched. -/
theorem executeParallelTasks_deadlock_reports
    (tasks : List Task) (success : String → Bool)
    (unmet : List (String × List String))
    (hdl : (executeParallelTasks success tasks).outcome = .deadlock unmet) :
    unmet = deadlockList tasks (executeParallelTasks success tasks).waves.flatten ∧
    (∀ t ∈ tasks, t.name ∉ (executeParallelTasks success tasks).waves.flatten →
      (t.name, t.depends_on.filter
        (fun d => decide (d ∉ (executeParallelTasks success tasks).waves.flatten))) ∈ unmet) ∧
    (∀ p ∈ unmet, p.1 ∉ (executeParallelTasks success tasks).waves.flatten) := by
  have h1 := runRounds_deadlock_eq success tasks (tasks.length + 1) [] unmet hdl
  simp only [List.nil_append] at h1
  refine ⟨h1, ?_, ?_⟩
  · intro t ht htn
    rw [h1]
    exact mem_deadlockList_of tasks _ t ht htn
  · intro p hp
    rw [h1] at hp
    exact deadlockList_fst tasks _ p hp

/-- Three-task chain used as a concrete witness workflow. -/
def wfTaskA : Task := { name := "A", type := "command" }

def wfTaskB : Task := { name := "B", type := "command", depends_on := ["A"] }

def wfTaskC : Task := { name := "C", type := "command", depends_on := ["A", "B"] }

def wfRank : String → Nat := fun nm => if nm = "A" then 0 else if nm = "B" then 1 else 2

/-- The A to B to C to A cycle used as a concrete deadlock witness. -/
def cycTaskA : Task := { name := "A", type := "command", depends_on := ["B"] }

def cycTaskB : Task := { name := "B", type := "command", depends_on := ["C"] }

def cycTaskC : Task := { name := "C", type := "command", depends_on := ["A"] }

theorem executeParallelTasks_acyclic_each_task_once_witness :
    (executeParallelTasks (fun _ => true) [wfTaskA, wfTaskB, wfTaskC]).outcome = .ok ∧
    (executeParallelTasks (fun _ => true)
      [wfTaskA, wfTaskB, wfTaskC]).waves.flatten.count "B" = 1 := by
  have h := executeParallelTasks_acyclic_each_task_once [wfTaskA, wfTaskB, wfTaskC]
    (fun _ => true) wfRank (by decide) (by decide)
  have h2 := h.2 (fun _ => rfl)
  exact ⟨h2.1, h2.2 wfTaskB (by decide)⟩

theorem executeParallelTasks_deadlock_reports_witness :
    ("A", ["B"]) ∈ ([("A", ["B"]), ("B", ["C"]), ("C", ["A"])] :
        List (String × List String)) ∧
    "A" ∉ (executeParallelTasks (fun _ => true)
      [cycTaskA, cycTaskB, cycTaskC]).waves.flatten := by
  have h := executeParallelTasks_deadlock_reports [cycTaskA, cycTaskB, cycTaskC]
    (fun _ => true) [("A", ["B"]), ("B", ["C"]), ("C", ["A"])] (by decide)
  refine ⟨?_, h.2.2 ("A", ["B"]) (by decide)⟩
  exact h.2.1 cycTaskA (by decide) (by decide)

end TaskExecutor

namespace CleanupManager

/-- A managed resource of the cleanup ledger (`Resource` in
`src/core/cleanup.ts`). -/
structure Resource where
  id : String
  name : String
  type : String
deriving DecidableEq

/-- The static state of `CleanupManager`: the resource ledger, the
`isShuttingDown` guard, and (for the embedding) the record of executed
teardown passes, each listing the resources in teardown order. -/
structure CleanupState where
  resources : List Resource
  isShuttingDown : Bool
  teardowns : List (List Resource)
deriving DecidableEq

/-- The manager state at process start. -/
def initState : CleanupState := ⟨[], false, []⟩

/-- `CleanupManager.addResource`: push onto the ledger. -/
def addResource (s : CleanupState) (r : Resource) : CleanupState :=
  { s with resources := s.resources ++ [r] }

/-- `CleanupManager.registerContainer`. -/
def registerContainer (s : CleanupState) (containerId : String) : CleanupState :=
  addResource s ⟨containerId, containerId, "docker"⟩

/-- `CleanupManager.registerProcess`. -/
def registerProcess (s : CleanupState) (processId : Nat) : CleanupState :=
  addResource s ⟨toString processId, toString processId, "process"⟩

/-- `CleanupManager.triggerCleanup`: the `isShuttingDown` check and set
happen synchronously, before the first await of the function, so any
interleaving of concurrent calls is equivalent to a sequence of atomic
entries — which is how calls are modelled here.  The first entry flips
the guard and performs one teardown pass over the reversed ledger; every
later entry returns immediately. -/
def triggerCleanup (s : CleanupState) : CleanupState :=
  if s.isShuttingDown then s
  else { s with isShuttingDown := true,
                teardowns := s.teardowns ++ [s.resources.reverse] }

theorem foldl_addResource (regs : List Resource) :
    ∀ s : CleanupState, regs.foldl addResource s =
      { s with resources := s.resources ++ regs } := by
  induction regs with
  | nil => intro s; simp
  | cons r rest ih =>
    intro s
    rw [List.foldl_cons, ih]
    simp [addResource]

theorem triggerCleanup_shuttingDown (s : CleanupState) :
    (triggerCleanup s).isShuttingDown = true := by
  unfold triggerCleanup
  split_ifs with h
  · exact h
  · rfl

theorem triggerCleanup_idem (s : CleanupState) :
    triggerCleanup (triggerCleanup s) = triggerCleanup s := by
  conv_lhs => rw [triggerCleanup]
  rw [if_pos (triggerCleanup_shuttingDown s)]

theorem iterate_triggerCleanup (n : Nat) (hn : 1 ≤ n) :
    ∀ s : CleanupState, Nat.iterate triggerCleanup n s = triggerCleanup s := by
  induction n with
  | zero => omega
  | succ n ih =>
    intro s
    rcases Nat.eq_or_lt_of_le hn with h | h
    · rw [← h]
      simp
    · rw [Function.iterate_succ_apply]
      rw [ih (by omega) (triggerCleanup s)]
      exact triggerCleanup_idem s

/-- C3: however many times `triggerCleanup` is entered (concurrently or
sequentially), the teardown pass runs exactly once, and each registered
resource is torn down exactly as many times as it was registered. -/
theorem triggerCleanup_at_most_once (regs : List Resource) (n : Nat) (hn : 1 ≤ n) :
    Nat.iterate triggerCleanup n (regs.foldl addResource initState) =
      triggerCleanup (regs.foldl addResource initState) ∧
    (triggerCleanup (regs.foldl addResource initState)).teardowns = [regs.reverse] ∧
    ∀ r : Resource,
      (triggerCleanup (regs.foldl addResource initState)).teardowns.flatten.count r =
        regs.count r := by
  rw [foldl_addResource regs initState]
  refine ⟨iterate_triggerCleanup n hn _, ?_, ?_⟩
  · rw [triggerCleanup]
    simp [initState]
  · intro r
    rw [triggerCleanup]
    simp [initState, List.count_reverse]

theorem triggerCleanup_at_most_once_witness :
    Nat.iterate triggerCleanup 2
        ([⟨"a", "a", "docker"⟩, ⟨"b", "b", "process"⟩].foldl addResource initState) =
      triggerCleanup
        ([⟨"a", "a", "docker"⟩, ⟨"b", "b", "process"⟩].foldl addResource initState) ∧
    (triggerCleanup
        ([⟨"a", "a", "docker"⟩, ⟨"b", "b", "process"⟩].foldl addResource initState)).teardowns =
      [[⟨"b", "b", "process"⟩, ⟨"a", "a", "docker"⟩]] := by
  have h := triggerCleanup_at_most_once
    [⟨"a", "a", "docker"⟩, ⟨"b", "b", "process"⟩] 2 (by decide)
  exact ⟨h.1, h.2.1⟩

/-- An observable event of the teardown pass. -/
inductive CleanupEvent where
  | started (id : String) : CleanupEvent
  | finished (id : String) : CleanupEvent
deriving DecidableEq

/-- The part of a resource teardown that runs synchronously when
`Promise.all(resourcesToCleanup.map(...))` invokes it.
`cleanupProcess` contains no await (an existence probe with
`process.kill(pid, 0)` followed by `process.kill(pid)`), so it runs to
completion during the map pass; `cleanupDockerContainer` suspends at its
first await (`container.inspect()`), so only its start is synchronous. -/
def syncSegment (r : Resource) : List CleanupEvent :=
  if r.type = "process" then [.started r.id, .finished r.id] else [.started r.id]

/-- Whether a resource teardown suspends at an await. -/
def suspends (r : Resource) : Bool := decide (¬ r.type = "process")

/-- Event trace of the teardown pass: `[...resources].reverse().map(...)`
starts each teardown in reverse registration order, running each mapped
call synchronously up to its first await; the suspended container
teardowns complete afterwards as their I/O resolves.  The resolution
order of the suspended tails is modelled first-issued-first-resolved;
the properties settled below depend only on the synchronous part, which
is the same under every resolution order. -/
def teardownTrace (resources : List Resource) : List CleanupEvent :=
  ((resources.reverse.map syncSegment).flatten) ++
    ((resources.reverse.filter suspends).map (fun r => .finished r.id))

/-- The ids whose teardown was started, in start order. -/
def startOrder (resources : List Resource) : List String :=
  (teardownTrace resources).filterMap
    (fun e => match e with | .started id => some id | .finished _ => none)

theorem filterMap_syncSegment (l : List Resource) :
    (l.map syncSegment).flatten.filterMap
        (fun e => match e with | .started id => some id | .finished _ => none) =
      l.map Resource.id := by
  induction l with
  | nil => rfl
  | cons r rest ih =>
    simp only [List.map_cons, List.flatten_cons, List.filterMap_append, ih]
    unfold syncSegment
    split_ifs <;> simp

/-- C4 (amended): teardown is initiated in strict reverse registration
order, and when every resource is a process (whose teardown is
synchronous) the teardowns also complete in strict reverse registration
order; container teardowns, however, overlap. -/
theorem teardown_initiation_reverse_order (resources : List Resource) :
    startOrder resources = (resources.map Resource.id).reverse ∧
    ((∀ r ∈ resources, r.type = "process") →
      teardownTrace resources =
        (resources.reverse.map (fun r =>
          [CleanupEvent.started r.id, CleanupEvent.finished r.id])).flatten) := by
  constructor
  · unfold startOrder teardownTrace
    rw [List.filterMap_append, filterMap_syncSegment]
    simp [List.map_reverse]
  · intro hall
    unfold teardownTrace
    have hfilter : resources.reverse.filter suspends = [] := by
      rw [List.filter_eq_nil_iff]
      intro r hr
      have := hall r (List.mem_reverse.1 hr)
      simp [suspends, this]
    rw [hfilter]
    simp only [List.map_nil, List.append_nil]
    congr 1
    apply List.map_congr_left
    intro r hr
    have := hall r (List.mem_reverse.1 hr)
    simp [syncSegment, this]

theorem teardown_initiation_reverse_order_witness :
    startOrder [⟨"1", "1", "process"⟩, ⟨"2", "2", "process"⟩] = ["2", "1"] ∧
    teardownTrace [⟨"1", "1", "process"⟩, ⟨"2", "2", "process"⟩] =
      [.started "2", .finished "2", .started "1", .finished "1"] := by
  have h := teardown_initiation_reverse_order
    [⟨"1", "1", "process"⟩, ⟨"2", "2", "process"⟩]
  exact ⟨h.1.trans (by decide), (h.2 (by decide)).trans (by decide)⟩

/-- C4 counterexample: with containers X then Y registered in that
order, the teardown of Y does not complete before the teardown of X
begins — both begin (in reverse order) before either completes, because
`Promise.all` runs them concurrently. -/
theorem teardown_lifo_completion_counterexample :
    teardownTrace [⟨"x", "x", "docker"⟩, ⟨"y", "y", "docker"⟩] =
      [.started "y", .started "x", .finished "y", .finished "x"] ∧
    ¬ List.indexOf (CleanupEvent.finished "y")
        (teardownTrace [⟨"x", "x", "docker"⟩, ⟨"y", "y", "docker"⟩]) <
      List.indexOf (CleanupEvent.started "x")
        (teardownTrace [⟨"x", "x", "docker"⟩, ⟨"y", "y", "docker"⟩]) := by
  decide

end CleanupManager
namespace TaskExecutor

/-- Backoff parameters (`RetryOptions.backoff` in `src/types`). -/
structure Backoff where
  initialDelay : ℚ
  maxDelay : ℚ
  factor : ℚ
deriving DecidableEq

/-- `RetryOptions` from `src/types`. -/
structure RetryOptions where
  attempts : Nat
  backoff : Backoff
deriving DecidableEq

/-- The data carried by `RetryError` (`src/utils/errors.ts`): the
attempt count and the last underlying cause. -/
structure RetryErrorData (E : Type) where
  attempts : Nat
  originalError : Option E
deriving DecidableEq

/-- Observable outcome of `retryOperation`: the returned value or the
raised `RetryError`, the number of invocations of the operation, and the
list of backoff waits actually slept, in order. -/
structure RetryResult (E A : Type) where
  value : Except (RetryErrorData E) A
  calls : Nat
  waits : List ℚ

/-- The body of `retryOperation`'s `for` loop: `remaining` counts the
attempts still allowed including the current one, `attemptIdx` is the
1-based loop variable, `delay` the current backoff delay, `last` the
last error seen.  On failure the loop breaks when the attempt is the
final one; otherwise it sleeps `delay`, sets
`delay = min(delay * factor, maxDelay)` and retries. -/
def retryAux (op : Nat → Except E A) (opts : RetryOptions) :
    Nat → Nat → ℚ → Option E → RetryResult E A
  | 0, _, _, last => ⟨.error ⟨opts.attempts, last⟩, 0, []⟩
  | remaining + 1, attemptIdx, delay, _ =>
    match op attemptIdx with
    | .ok a => ⟨.ok a, 1, []⟩
    | .error e =>
      if remaining = 0 then ⟨.error ⟨opts.attempts, some e⟩, 1, []⟩
      else
        let rest := retryAux op opts remaining (attemptIdx + 1)
          (min (delay * opts.backoff.factor) opts.backoff.maxDelay) (some e)
        ⟨rest.value, rest.calls + 1, delay :: rest.waits⟩

/-- `TaskExecutor.retryOperation`, with the operation's behaviour given
by the outcome of each 1-based invocation. -/
def retryOperation (op : Nat → Except E A) (opts : RetryOptions) : RetryResult E A :=
  retryAux op opts opts.attempts 1 opts.backoff.initialDelay none

/-- The delay value before the k-th retry as the code computes it:
start at the given delay and iterate `delay = min(delay * factor,
maxDelay)`. -/
def delayIter (b : Backoff) (d : ℚ) : Nat → ℚ
  | 0 => d
  | k + 1 => min (delayIter b d k * b.factor) b.maxDelay

/-- The waits of a run with `retries` sleeps, as the code produces
them. -/
def codeWaitSchedule (opts : RetryOptions) (retries : Nat) : List ℚ :=
  (List.range retries).map (delayIter opts.backoff opts.backoff.initialDelay)

/-- The wait schedule as the spec words it: before each retry wait
`min(delay, maxDelay)` where `delay` starts at the initial delay and is
multiplied by the factor each time. -/
def specWaitSchedule (opts : RetryOptions) (retries : Nat) : List ℚ :=
  (List.range retries).map
    (fun k => min (opts.backoff.initialDelay * opts.backoff.factor ^ k)
      opts.backoff.maxDelay)

theorem delayIter_shift (b : Backoff) (d : ℚ) :
    ∀ k, delayIter b (min (d * b.factor) b.maxDelay) k = delayIter b d (k + 1) := by
  intro k
  induction k with
  | zero => rfl
  | succ k ih =>
    show min (delayIter b (min (d * b.factor) b.maxDelay) k * b.factor) b.maxDelay =
      min (delayIter b d (k + 1) * b.factor) b.maxDelay
    rw [ih]

theorem retryAux_all_fail (E : Type) (op : Nat → E) (opts : RetryOptions) :
    ∀ remaining, 1 ≤ remaining → ∀ attemptIdx delay last,
      retryAux (fun k => (Except.error (op k) : Except E Unit)) opts
          remaining attemptIdx delay last =
        ⟨.error ⟨opts.attempts, some (op (attemptIdx + remaining - 1))⟩, remaining,
          (List.range (remaining - 1)).map (delayIter opts.backoff delay)⟩ := by
  intro remaining
  induction remaining with
  | zero => omega
  | succ r ih =>
    intro _ attemptIdx delay last
    by_cases hr : r = 0
    · subst hr
      simp [retryAux]
    · have hr1 : 1 ≤ r := by omega
      simp only [retryAux, if_neg hr]
      rw [ih hr1 (attemptIdx + 1)
        (min (delay * opts.backoff.factor) opts.backoff.maxDelay) (some (op attemptIdx))]
      simp only [RetryResult.mk.injEq]
      refine ⟨?_, ?_, ?_⟩
      · have : attemptIdx + 1 + r - 1 = attemptIdx + (r + 1) - 1 := by omega
        rw [this]
      · trivial
      · have hr2 : r = (r - 1) + 1 := by omega
        conv_rhs => rw [show r + 1 - 1 = r from rfl, hr2, List.range_succ_eq_map]
        rw [List.map_cons]
        refine congrArg₂ List.cons rfl ?_
        rw [List.map_map]
        apply List.map_congr_left
        intro k _
        simp only [Function.comp_apply]
        rw [delayIter_shift]

theorem delayIter_closed (b : Backoff) (hinit : b.initialDelay ≤ b.maxDelay)
    (hf : 1 ≤ b.factor) (hM : 0 ≤ b.maxDelay) :
    ∀ k, delayIter b b.initialDelay k =
      min (b.initialDelay * b.factor ^ k) b.maxDelay := by
  intro k
  induction k with
  | zero => simp [delayIter, min_eq_left hinit]
  | succ k ih =>
    show min (delayIter b b.initialDelay k * b.factor) b.maxDelay = _
    rw [ih]
    rcases le_total (b.initialDelay * b.factor ^ k) b.maxDelay with hc | hc
    · rw [min_eq_left hc, pow_succ, ← mul_assoc]
    · rw [min_eq_right hc]
      have h1 : b.maxDelay ≤ b.maxDelay * b.factor := le_mul_of_one_le_right hM hf
      have h0 : (0 : ℚ) ≤ b.initialDelay * b.factor ^ k := le_trans hM hc
      have h2 : b.maxDelay ≤ b.initialDelay * b.factor ^ (k + 1) := by
        calc b.maxDelay ≤ b.initialDelay * b.factor ^ k := hc
        _ ≤ b.initialDelay * b.factor ^ k * b.factor := le_mul_of_one_le_right h0 hf
        _ = b.initialDelay * b.factor ^ (k + 1) := by rw [pow_succ, mul_assoc]
      rw [min_eq_right h1, min_eq_right h2]

/-- C5 (amended): wrapping an always-failing operation, `retryOperation`
invokes it exactly `attempts` times and raises a `RetryError` whose
`attempts` field is the configured count and whose `originalError` is
the failure of the last invocation; the k-th backoff wait is obtained by
starting from the raw (unclamped) `initialDelay` and iterating
`delay = min(delay * factor, maxDelay)` — which agrees with the spec's
`min(initialDelay * factor ^ k, maxDelay)` schedule whenever
`initialDelay ≤ maxDelay`, `factor ≥ 1` and `maxDelay ≥ 0`. -/
theorem retryOperation_exhausts_attempts (E : Type) (op : Nat → E)
    (opts : RetryOptions) (h1 : 1 ≤ opts.attempts) :
    (retryOperation (fun k => (Except.error (op k) : Except E Unit)) opts).calls =
      opts.attempts ∧
    (retryOperation (fun k => (Except.error (op k) : Except E Unit)) opts).value =
      .error ⟨opts.attempts, some (op opts.attempts)⟩ ∧
    (retryOperation (fun k => (Except.error (op k) : Except E Unit)) opts).waits =
      codeWaitSchedule opts (opts.attempts - 1) ∧
    (opts.backoff.initialDelay ≤ opts.backoff.maxDelay → 1 ≤ opts.backoff.factor →
      0 ≤ opts.backoff.maxDelay →
      (retryOperation (fun k => (Except.error (op k) : Except E Unit)) opts).waits =
        specWaitSchedule opts (opts.attempts - 1)) := by
  have h := retryAux_all_fail E op opts opts.attempts h1 1
    opts.backoff.initialDelay none
  have hidx : 1 + opts.attempts - 1 = opts.attempts := by omega
  rw [hidx] at h
  refine ⟨?_, ?_, ?_, ?_⟩
  · rw [retryOperation, h]
  · rw [retryOperation, h]
  · rw [retryOperation, h]; rfl
  · intro ha hb hc
    rw [retryOperation, h]
    show codeWaitSchedule opts (opts.attempts - 1) = _
    unfold codeWaitSchedule specWaitSchedule
    apply List.map_congr_left
    intro k _
    exact delayIter_closed opts.backoff ha hb hc k

/-- Concrete options with `initialDelay > maxDelay`, on which the code
and the spec schedules differ. -/
def cexOpts : RetryOptions := ⟨2, ⟨20000, 10000, 2⟩⟩

/-- C5 counterexample: with `attempts = 2`, `initialDelay = 20000`,
`maxDelay = 10000`, the single wait the code sleeps is the raw
`initialDelay = 20000`, not `min(20000, 10000) = 10000` as the claim
states. -/
theorem retry_wait_schedule_counterexample :
    (retryOperation (fun k => (Except.error k : Except Nat Unit)) cexOpts).waits =
      [20000] ∧
    specWaitSchedule cexOpts (cexOpts.attempts - 1) = [10000] ∧
    (retryOperation (fun k => (Except.error k : Except Nat Unit)) cexOpts).waits ≠
      specWaitSchedule cexOpts (cexOpts.attempts - 1) := by
  have h1 : (retryOperation (fun k => (Except.error k : Except Nat Unit)) cexOpts).waits =
      [20000] := by decide
  have h2 : specWaitSchedule cexOpts (cexOpts.attempts - 1) = [10000] := by
    show specWaitSchedule cexOpts 1 = [10000]
    unfold specWaitSchedule
    rw [show List.range 1 = [0] from rfl, List.map_cons, List.map_nil]
    norm_num [cexOpts, min_def]
  refine ⟨h1, h2, ?_⟩
  rw [h1, h2]
  intro hc
  exact absurd (List.cons.injEq .. ▸ hc) (by norm_num)

/-- Default-style options for the witness run. -/
def wOpts : RetryOptions := ⟨3, ⟨1000, 10000, 2⟩⟩

theorem retryOperation_exhausts_attempts_witness :
    (retryOperation (fun k => (Except.error k : Except Nat Unit)) wOpts).calls = 3 ∧
    (retryOperation (fun k => (Except.error k : Except Nat Unit)) wOpts).value =
      .error ⟨3, some 3⟩ ∧
    (retryOperation (fun k => (Except.error k : Except Nat Unit)) wOpts).waits =
      [1000, 2000] := by
  have h := retryOperation_exhausts_attempts Nat (fun k => k) wOpts (by decide)
  refine ⟨h.1, h.2.1, ?_⟩
  rw [h.2.2.1]
  show codeWaitSchedule wOpts 2 = [1000, 2000]
  unfold codeWaitSchedule
  rw [show List.range 2 = [0, 1] from rfl, List.map_cons, List.map_cons, List.map_nil]
  norm_num [delayIter, wOpts, min_def]

end TaskExecutor
namespace HealthChecker

/-- The health-check kind tag (`'tcp' | 'http' | 'custom'`). -/
inductive HCType where
  | tcp : HCType
  | http : HCType
  | custom : HCType
deriving DecidableEq

/-- `ServiceHealthCheck` from `src/types`.  The custom predicate is
modelled by the outcome of invoking it: `some (.ok b)` for a predicate
resolving `b`, `some (.error m)` for a predicate that rejects, `none`
when absent. -/
structure ServiceHealthCheck where
  type : HCType
  host : String
  port : Nat
  path : Option String := none
  retries : Nat
  interval : ℚ
  timeout : ℚ
  customCheck : Option (Except String Bool) := none

/-- Outcome of the TCP connection attempt the network would deliver:
either the connection gets established after `t` milliseconds, or the
socket errors. -/
inductive TcpOutcome where
  | connectsAfter (t : ℚ) : TcpOutcome
  | connectError : TcpOutcome

/-- Outcome of the HTTP GET the network would deliver: either a response
with a status code after `t` milliseconds, or a request error. -/
inductive HttpOutcome where
  | respondsAfter (t : ℚ) (status : Nat) : HttpOutcome
  | requestError : HttpOutcome

/-- The behaviour of the network for one probe. -/
structure ProbeWorld where
  tcp : TcpOutcome
  http : HttpOutcome

/-- `HealthChecker.checkTCP`: `socket.setTimeout(check.interval)` arms
the give-up timer with the `interval` field, so the connection succeeds
exactly when it is established within `interval` milliseconds; a socket
error resolves `false`.  The promise always resolves a boolean. -/
def checkTCP (w : ProbeWorld) (check : ServiceHealthCheck) : Bool :=
  match w.tcp with
  | .connectsAfter t => decide (t ≤ check.interval)
  | .connectError => false

/-- `HealthChecker.checkHTTP`: `req.setTimeout(check.interval)` arms the
give-up timer with the `interval` field; within it, success is a defined
status code below 400; a request error or timeout resolves `false`. -/
def checkHTTP (w : ProbeWorld) (check : ServiceHealthCheck) : Bool :=
  match w.http with
  | .respondsAfter t status =>
      if t ≤ check.interval then decide (status < 400) else false
  | .requestError => false

/-- `HealthChecker.waitForService`: the Custom-without-predicate check
throws before the `try` block (and before any probe); inside the `try`,
every probe resolves a boolean and every exception (including a
rejecting custom predicate) is caught and turned into `false`.  The
second component counts the network probes issued. -/
def waitForService (w : ProbeWorld) (check : ServiceHealthCheck) :
    Except String Bool × Nat :=
  if check.type = .custom ∧ check.customCheck.isNone then
    (.error "Custom health check requires customCheck function", 0)
  else
    match check.type with
    | .tcp => (.ok (checkTCP w check), 1)
    | .http => (.ok (checkHTTP w check), 1)
    | .custom =>
      match check.customCheck with
      | some (.ok b) => (.ok b, 0)
      | some (.error _) => (.ok false, 0)
      | none => (.ok false, 0)

/-- C6: `waitForService` returns a boolean and never throws — any probe
failure or exception yields `false` — except that a Custom check without
a predicate raises the configuration error immediately, with zero
network probes issued. -/
theorem waitForService_total (w : ProbeWorld) (check : ServiceHealthCheck) :
    (check.type = .custom ∧ check.customCheck = none →
      waitForService w check =
        (.error "Custom health check requires customCheck function", 0)) ∧
    (¬ (check.type = .custom ∧ check.customCheck = none) →
      ∃ b, (waitForService w check).1 = .ok b) := by
  constructor
  · intro ⟨h1, h2⟩
    rw [waitForService, if_pos ⟨h1, by rw [h2]; rfl⟩]
  · intro hne
    have hcond : ¬ (check.type = .custom ∧ check.customCheck.isNone) := by
      intro ⟨h1, h2⟩
      exact hne ⟨h1, Option.isNone_iff_eq_none.1 h2⟩
    rw [waitForService, if_neg hcond]
    cases htype : check.type with
    | tcp => exact ⟨checkTCP w check, rfl⟩
    | http => exact ⟨checkHTTP w check, rfl⟩
    | custom =>
      cases hcc : check.customCheck with
      | none => exact ⟨false, rfl⟩
      | some r =>
        cases r with
        | ok b => exact ⟨b, rfl⟩
        | error m => exact ⟨false, rfl⟩

/-- A Custom check without a predicate, and a TCP check, used as
concrete witnesses. -/
def customNoPred : ServiceHealthCheck :=
  { type := .custom, host := "localhost", port := 5432,
    retries := 5, interval := 2000, timeout := 30000 }

def tcpCheck : ServiceHealthCheck :=
  { type := .tcp, host := "localhost", port := 5432,
    retries := 5, interval := 2000, timeout := 30000 }

def probeWorldFast : ProbeWorld :=
  { tcp := .connectsAfter 100, http := .respondsAfter 100 200 }

theorem waitForService_total_witness :
    waitForService probeWorldFast customNoPred =
      (.error "Custom health check requires customCheck function", 0) ∧
    ∃ b, (waitForService probeWorldFast tcpCheck).1 = .ok b := by
  constructor
  · exact (waitForService_total probeWorldFast customNoPred).1 ⟨rfl, rfl⟩
  · exact (waitForService_total probeWorldFast tcpCheck).2 (by simp [tcpCheck])

/-- C10: both probes arm their give-up timer from the `interval` field;
the `timeout` field is never consulted, so the probe outcome is
invariant under any change of `timeout`, and a service that answers
later than `interval` fails the probe even when it answers well within
`timeout`. -/
theorem probe_time_limit_is_interval (w : ProbeWorld)
    (check : ServiceHealthCheck) (x : ℚ) :
    checkTCP w { check with timeout := x } = checkTCP w check ∧
    checkHTTP w { check with timeout := x } = checkHTTP w check ∧
    (∀ t, w.tcp = .connectsAfter t → check.interval < t →
      checkTCP w check = false) ∧
    (∀ t status, w.http = .respondsAfter t status → check.interval < t →
      checkHTTP w check = false) := by
  refine ⟨?_, ?_, ?_, ?_⟩
  · unfold checkTCP
    cases w.tcp <;> rfl
  · unfold checkHTTP
    cases w.http <;> rfl
  · intro t ht hlt
    unfold checkTCP
    rw [ht]
    simp [not_le.2 hlt]
  · intro t status ht hlt
    unfold checkHTTP
    rw [ht]
    simp [not_le.2 hlt]

/-- A service that answers after 500 ms fails a probe with
`interval = 5` even though `timeout = 1000` would allow it. -/
def slowWorld : ProbeWorld :=
  { tcp := .connectsAfter 500, http := .respondsAfter 500 200 }

def shortIntervalCheck : ServiceHealthCheck :=
  { type := .tcp, host := "localhost", port := 5432,
    retries := 5, interval := 5, timeout := 1000 }

theorem probe_time_limit_is_interval_witness :
    checkTCP slowWorld shortIntervalCheck = false ∧
    checkHTTP slowWorld shortIntervalCheck = false ∧
    checkTCP slowWorld { shortIntervalCheck with timeout := 999999 } =
      checkTCP slowWorld shortIntervalCheck := by
  have h := probe_time_limit_is_interval slowWorld shortIntervalCheck 999999
  refine ⟨h.2.2.1 500 rfl (by norm_num [shortIntervalCheck]), 
    h.2.2.2 500 200 rfl (by norm_num [shortIntervalCheck]), h.1⟩

end HealthChecker
namespace TaskExecutor

/-!
The repository contains two versions of `core/executor.ts`.  Variant A
(the `Logger`-based one) wraps the whole of `executeTask` in a
try/catch that logs and returns `false`, loads `env_file` into the
context, and merges the spawn environment with `EnvLoader.mergeEnv`.
Variant B (the `logging`-module one) has no try/catch in `executeTask`,
returns `false` for unknown kinds and missing fields, and runs the
`sanitizeCommand`/`sanitizeEnv` gate — the only raising path — before
spawning.
-/

/-- Internal failure of a task execution path (`TaskError`,
`RetryError`, `HealthCheckError` from `src/utils/errors.ts`, or any
other thrown error). -/
inductive TaskFailure where
  | taskError (msg : String) : TaskFailure
  | retryError (attempts : Nat) (msg : String) : TaskFailure
  | healthCheckError (msg : String) : TaskFailure
  | other (msg : String) : TaskFailure
deriving DecidableEq

/-- What the spawned child process does: fail to start, or exit with a
code. -/
inductive SpawnOutcome where
  | spawnError (msg : String) : SpawnOutcome
  | exits (code : Int) : SpawnOutcome
deriving DecidableEq

/-- The behaviour of the process/container collaborators for one task
execution: the spawn outcome, and the outcome of the docker
pull/create/start/health pipeline (an external I/O collaborator). -/
structure ExecWorld where
  spawn : SpawnOutcome
  dockerResult : Except TaskFailure Bool

namespace VariantA

/-- `executeTask` builds `taskEnv` as `task.env`, overridden by the
env-file contents when `env_file` is set
(`EnvLoader.mergeEnv(taskEnv, fileEnv)`). -/
def taskEnvOf (task : Task) (fileEnv : Obj) : Obj :=
  match task.env_file with
  | none => task.env
  | some _ => EnvLoader.mergeEnv [task.env, fileEnv]

/-- `executeTask` passes `executeCommand` the context with its `env`
field replaced by `taskEnv`. -/
def contextForTask (ctx : ExecutionContext) (task : Task) (fileEnv : Obj) :
    ExecutionContext :=
  { ctx with env := taskEnvOf task fileEnv }

/-- `executeCommand` merges
`EnvLoader.mergeEnv(process.env, context.env, task.env)` for the
spawn call. -/
def commandEnvVars (procEnv : Obj) (ctx : ExecutionContext) (task : Task) : Obj :=
  EnvLoader.mergeEnv [procEnv, ctx.env, task.env]

/-- The environment `executeTask` hands to `spawn` for a command task:
the composition of the two steps above. -/
def executeTaskSpawnEnv (procEnv : Obj) (ctx : ExecutionContext) (task : Task)
    (fileEnv : Obj) : Obj :=
  commandEnvVars procEnv (contextForTask ctx task fileEnv) task

/-- `executeCommand`: missing `command` throws a `TaskError`; a spawn
error rejects with a `TaskError`; exit code 0 resolves `true`, any
other exit code rejects with a `TaskError`. -/
def executeCommand (task : Task) (w : ExecWorld) : Except TaskFailure Bool :=
  match task.command with
  | none => .error (.taskError "Command task requires command property")
  | some _ =>
    match w.spawn with
    | .spawnError msg => .error (.taskError ("Command failed to start: " ++ msg))
    | .exits code =>
      if code = 0 then .ok true
      else .error (.taskError "Command failed with exit code")

/-- `executeDocker`: missing `image` throws a `TaskError`; otherwise
the pull/create/start/health pipeline decides the outcome. -/
def executeDocker (task : Task) (w : ExecWorld) : Except TaskFailure Bool :=
  match task.image with
  | none => .error (.taskError "Docker task requires image property")
  | some _ => w.dockerResult

/-- The body of `executeTask` inside its try: dry-run short-circuits to
`true`; the `switch` dispatches on the kind tag and throws a
`TaskError` for an unknown kind. -/
def executeTaskBody (task : Task) (ctx : ExecutionContext) (w : ExecWorld) :
    Except TaskFailure Bool :=
  if ctx.dryRun then .ok true
  else if task.type = "command" then executeCommand task w
  else if task.type = "docker" then executeDocker task w
  else .error (.taskError ("Unknown task type: " ++ task.type))

/-- `executeTask`: the whole body sits in a try/catch whose catch
branches log and return `false`, so the caller always observes a
resolved boolean.  The outer `Except String` layer is what a rejected
promise would look like to the caller. -/
def executeTask (task : Task) (ctx : ExecutionContext) (w : ExecWorld) :
    Except String Bool :=
  match executeTaskBody task ctx w with
  | .ok b => .ok b
  | .error _ => .ok false

end VariantA

namespace VariantB

/-- `executeCommand`: missing `command` logs and returns `false`;
`sanitizeCommand` and `sanitizeEnv` (one value-reject predicate for
both, as `sanitizeEnv` applies `sanitizeCommand` to every value) raise
before the spawn; a spawn error resolves `false`; otherwise success is
exit code 0. -/
def executeCommand (reject : String → Bool) (task : Task) (w : ExecWorld) :
    Except String Bool :=
  match task.command with
  | none => .ok false
  | some cmd =>
    if reject cmd then .error "Command contains unsafe characters"
    else if (task.env.map Prod.snd).any reject then
      .error "Environment variable contains unsafe characters"
    else
      match w.spawn with
      | .spawnError _ => .ok false
      | .exits code => .ok (decide (code = 0))

/-- `executeDocker`: missing `image` logs and returns `false`;
`sanitizeEnv` runs before the try block and can raise; every error of
the container pipeline is caught and returned as `false`. -/
def executeDocker (reject : String → Bool) (task : Task) (w : ExecWorld) :
    Except String Bool :=
  match task.image with
  | none => .ok false
  | some _ =>
    if (task.env.map Prod.snd).any reject then
      .error "Environment variable contains unsafe characters"
    else
      match w.dockerResult with
      | .ok b => .ok b
      | .error _ => .ok false

/-- The spawn environment of `executeCommand`: the spread of the
process env, the context env and the (sanitizer-validated, unchanged)
task env. -/
def spawnEnv (procEnv : Obj) (ctx : ExecutionContext) (task : Task) : Obj :=
  Obj.spread (Obj.spread procEnv ctx.env) task.env

/-- `executeTask`: no try/catch; dry-run returns `true`; an unknown
kind tag logs and returns `false`. -/
def executeTask (reject : String → Bool) (task : Task) (ctx : ExecutionContext)
    (w : ExecWorld) : Except String Bool :=
  if ctx.dryRun then .ok true
  else if task.type = "command" then executeCommand reject task w
  else if task.type = "docker" then executeDocker reject task w
  else .ok false

end VariantB

/-- The spawn environment as the claim words it: the merge of the
process environment, the workflow context env and the task env, later
overriding earlier. -/
def claimedSpawnEnv (procEnv ctxEnv taskEnv : Obj) : Obj :=
  EnvLoader.mergeEnv [procEnv, ctxEnv, taskEnv]

/-- Context and task on which Variant A drops the workflow context
environment. -/
def cexCtx : ExecutionContext := { env := [("DB_URL", "from-context")] }

def cexTask : Task := { name := "t", type := "command", command := some "true" }

/-- C7 counterexample: under Variant A, `executeTask` replaces the
context env with the task-level env before `executeCommand` merges, so
a key present only in the workflow context env never reaches the
spawned process — while the claimed merge keeps it. -/
theorem env_context_dropped_counterexample :
    Obj.get (VariantA.executeTaskSpawnEnv [] cexCtx cexTask []) "DB_URL" = none ∧
    Obj.get (claimedSpawnEnv [] cexCtx.env cexTask.env) "DB_URL" =
      some "from-context" := by
  decide

theorem get_mergeEnv₃ (a b c : Obj) (k : String) :
    Obj.get (EnvLoader.mergeEnv [a, b, c]) k =
      ((Obj.get c k).orElse (fun _ =>
        (Obj.get b k).orElse (fun _ => Obj.get a k))) := by
  show Obj.get (Obj.spread (Obj.spread (Obj.spread {} a) b) c) k = _
  rw [Obj.get_spread, Obj.get_spread, Obj.get_spread]
  cases Obj.get c k <;> cases Obj.get b k <;>
    cases Obj.get a k <;> rfl

/-- C7 (amended): in Variant B the spawned environment is the claimed
merge — for any key, the task env wins, then the context env, then the
process environment.  In Variant A, `executeTask` overwrites the
context env with the task-level env before merging, so the spawn
environment does not depend on the workflow context env at all, and
(without an env_file) a key resolves to the task env or else the
process environment. -/
theorem spawn_env_precedence (procEnv : Obj) (ctx : ExecutionContext)
    (task : Task) (fileEnv : Obj) (k : String) :
    (Obj.get (VariantB.spawnEnv procEnv ctx task) k =
      ((Obj.get task.env k).orElse (fun _ =>
        (Obj.get ctx.env k).orElse (fun _ => Obj.get procEnv k)))) ∧
    (∀ ctx2 : ExecutionContext,
      VariantA.executeTaskSpawnEnv procEnv ctx task fileEnv =
        VariantA.executeTaskSpawnEnv procEnv ctx2 task fileEnv) ∧
    (task.env_file = none →
      Obj.get (VariantA.executeTaskSpawnEnv procEnv ctx task fileEnv) k =
        ((Obj.get task.env k).orElse (fun _ => Obj.get procEnv k))) := by
  refine ⟨?_, ?_, ?_⟩
  · unfold VariantB.spawnEnv
    rw [Obj.get_spread, Obj.get_spread]
  · intro ctx2
    rfl
  · intro hef
    unfold VariantA.executeTaskSpawnEnv VariantA.commandEnvVars
      VariantA.contextForTask VariantA.taskEnvOf
    rw [hef]
    rw [get_mergeEnv₃]
    cases Obj.get task.env k <;> rfl

theorem spawn_env_precedence_witness :
    Obj.get (VariantB.spawnEnv [("A", "proc")] cexCtx cexTask) "DB_URL" =
      some "from-context" ∧
    Obj.get (VariantB.spawnEnv [("A", "proc")] cexCtx cexTask) "A" = some "proc" ∧
    Obj.get (VariantA.executeTaskSpawnEnv [("A", "proc")] cexCtx cexTask []) "A" =
      some "proc" := by
  have h1 := spawn_env_precedence [("A", "proc")] cexCtx cexTask [] "DB_URL"
  have h2 := spawn_env_precedence [("A", "proc")] cexCtx cexTask [] "A"
  refine ⟨?_, ?_, ?_⟩
  · rw [h1.1]; decide
  · rw [h2.1]; decide
  · rw [h2.2.2 rfl]; decide

/-- A task with an unknown kind tag, and a default context/world. -/
def badTask : Task := { name := "t", type := "unknown" }

def noCmdTask : Task := { name := "t", type := "command" }

def plainCtx : ExecutionContext := {}

def okWorld : ExecWorld := ⟨.exits 0, .ok true⟩

/-- C8 counterexample: for a task of unknown kind — the claim's example
of a configuration error that should throw — both executor variants
return a resolved `false` instead of throwing; the `TaskError` Variant A
raises internally is swallowed by its own catch.  The same holds for a
command task missing its `command` field. -/
theorem executeTask_config_error_returns_false :
    VariantA.executeTask badTask plainCtx okWorld = .ok false ∧
    VariantB.executeTask (fun _ => false) badTask plainCtx okWorld = .ok false ∧
    VariantA.executeTaskBody badTask plainCtx okWorld =
      .error (.taskError "Unknown task type: unknown") ∧
    VariantA.executeTask noCmdTask plainCtx okWorld = .ok false ∧
    VariantB.executeTask (fun _ => false) noCmdTask plainCtx okWorld = .ok false := by
  refine ⟨rfl, rfl, rfl, rfl, rfl⟩

/-- C8 (amended): `executeTask` returns a boolean and never throws for
ordinary task failure; unknown kinds and missing required fields are
also reported as `false` rather than thrown (Variant A catches its own
internal `TaskError`, Variant B returns `false` directly); the only
raising path is Variant B's sanitizer gate rejecting an unsafe command
or env value. -/
theorem executeTask_no_throw (reject : String → Bool) (task : Task)
    (ctx : ExecutionContext) (w : ExecWorld) :
    (∃ b, VariantA.executeTask task ctx w = .ok b) ∧
    (ctx.dryRun = false → task.type ≠ "command" → task.type ≠ "docker" →
      VariantA.executeTask task ctx w = .ok false ∧
      VariantB.executeTask reject task ctx w = .ok false) ∧
    (ctx.dryRun = false → task.type = "command" → task.command = none →
      VariantA.executeTask task ctx w = .ok false ∧
      VariantB.executeTask reject task ctx w = .ok false) ∧
    (∀ cmd code, ctx.dryRun = false → task.type = "command" →
      task.command = some cmd → reject cmd = false →
      (task.env.map Prod.snd).any reject = false →
      w.spawn = .exits code → code ≠ 0 →
      VariantA.executeTask task ctx w = .ok false ∧
      VariantB.executeTask reject task ctx w = .ok false) ∧
    (∀ msg, VariantB.executeTask reject task ctx w = .error msg →
      msg = "Command contains unsafe characters" ∨
      msg = "Environment variable contains unsafe characters") := by
  refine ⟨?_, ?_, ?_, ?_, ?_⟩
  · unfold VariantA.executeTask
    cases VariantA.executeTaskBody task ctx w with
    | ok b => exact ⟨b, rfl⟩
    | error e => exact ⟨false, rfl⟩
  · intro hdry hc hd
    unfold VariantA.executeTask VariantA.executeTaskBody VariantB.executeTask
    rw [hdry]
    simp only [Bool.false_eq_true, if_false, if_neg hc, if_neg hd]
    exact ⟨by trivial, by trivial⟩
  · intro hdry hc hcmd
    unfold VariantA.executeTask VariantA.executeTaskBody VariantB.executeTask
      VariantA.executeCommand VariantB.executeCommand
    rw [hdry, hcmd]
    simp only [Bool.false_eq_true, if_false, if_pos hc]
    exact ⟨by trivial, by trivial⟩
  · intro cmd code hdry hc hcmd hrej henv hspawn hcode
    unfold VariantA.executeTask VariantA.executeTaskBody VariantB.executeTask
      VariantA.executeCommand VariantB.executeCommand
    rw [hdry, hcmd, hspawn]
    simp only [Bool.false_eq_true, if_false, if_pos hc, hrej, henv,
      if_neg hcode, Bool.false_eq_true]
    exact ⟨by trivial, by simp [hcode]⟩
  · intro msg hmsg
    unfold VariantB.executeTask VariantB.executeCommand VariantB.executeDocker at hmsg
    repeat' split at hmsg
    all_goals
      first
        | exact Except.noConfusion hmsg
        | (injection hmsg with h
           first
             | exact Or.inl h.symm
             | exact Or.inr h.symm)

/-- A failing command task for the witness. -/
def failTask : Task := { name := "t", type := "command", command := some "false" }

def failWorld : ExecWorld := ⟨.exits 1, .ok true⟩

theorem executeTask_no_throw_witness :
    VariantA.executeTask failTask plainCtx failWorld = .ok false ∧
    VariantB.executeTask (fun _ => false) failTask plainCtx failWorld = .ok false ∧
    (∃ b, VariantA.executeTask badTask plainCtx okWorld = .ok b) := by
  have h := executeTask_no_throw (fun _ => false) failTask plainCtx failWorld
  have h2 := executeTask_no_throw (fun _ => false) badTask plainCtx okWorld
  have hf := h.2.2.2.1 "false" 1 rfl rfl rfl rfl (by decide) rfl (by decide)
  exact ⟨hf.1, hf.2, h2.1⟩

end TaskExecutor
namespace LogStreamer

/-- Options of `LogStreamer` (`src/commands/workflow.ts`).  The filter
string is modelled as a character list.  A JS empty-string filter is
falsy and skips the filter branch, which coincides with the fact that
every payload contains the empty substring. -/
structure LogOptions where
  follow : Bool := false
  timestamps : Bool := false
  filter : Option (List Char) := none

/-- A structured log line: message, error flag, optional timestamp. -/
structure LogLine where
  message : List Char
  isError : Bool
  timestamp : Option (List Char) := none
deriving DecidableEq

/-- Payload bytes are decoded to characters (`Buffer.toString`);
payloads are ASCII in this model. -/
def decodeByte (b : Nat) : Char := Char.ofNat b

/-- The whitespace characters `String.prototype.trim` strips. -/
def isJsWhitespace (c : Char) : Bool :=
  decide (c = ' ') || decide (c = '\t') || decide (c = '\n') || decide (c = '\r')

/-- `data.trim()`: strip whitespace from both ends. -/
def trimChars (s : List Char) : List Char :=
  ((s.dropWhile isJsWhitespace).reverse.dropWhile isJsWhitespace).reverse

def isCharEq (a : Char) : Char → Bool := fun c => decide (c = a)

/-- The fixed-width timestamp pattern of `processChunk`: four digits,
dash, two digits, dash, two digits, a literal T, then three two-digit
groups separated by colons, an arbitrary non-newline character, three
digits and a literal Z. -/
def tsPattern : List (Char → Bool) :=
  [Char.isDigit, Char.isDigit, Char.isDigit, Char.isDigit, isCharEq '-',
   Char.isDigit, Char.isDigit, isCharEq '-', Char.isDigit, Char.isDigit,
   isCharEq 'T', Char.isDigit, Char.isDigit, isCharEq ':', Char.isDigit,
   Char.isDigit, isCharEq ':', Char.isDigit, Char.isDigit,
   (fun c => decide (¬ c = '\n')), Char.isDigit, Char.isDigit, Char.isDigit,
   isCharEq 'Z']

def matchesTsShape (ts : List Char) : Bool :=
  decide (ts.length = 24) && (List.zipWith (fun p c => p c) tsPattern ts).all id

/-- The timestamp split of `processChunk`: the 24-character pattern,
one whitespace character, and a nonempty remainder which the
dot-excludes-newline `.+` group requires to contain no newline. -/
def splitTimestamp (data : List Char) : Option (List Char × List Char) :=
  let ts := data.take 24
  match data.drop 24 with
  | [] => none
  | ws :: msg =>
    if matchesTsShape ts && isJsWhitespace ws && decide (msg ≠ []) &&
        decide (¬ '\n' ∈ msg) && decide (¬ '\r' ∈ msg) then
      some (ts, msg)
    else none

/-- Build the emitted line from the selector byte and the trimmed
payload: in timestamp mode a matching leading pattern is split off,
otherwise the whole payload is the message; `isError` is the comparison
`streamType === 2`. -/
def emitLine (opts : LogOptions) (streamType : Option Nat) (data : List Char) :
    LogLine :=
  if opts.timestamps then
    match splitTimestamp data with
    | some (ts, msg) => ⟨msg, decide (streamType = some 2), some ts⟩
    | none => ⟨data, decide (streamType = some 2), none⟩
  else ⟨data, decide (streamType = some 2), none⟩

/-- `LogStreamer.processChunk`: the selector is the first header byte
(`header[0]`, i.e. the chunk's first byte), the payload is everything
after the 8-byte header, decoded and trimmed; a set filter drops the
frame when the payload does not contain it as a substring. -/
def processChunk (opts : LogOptions) (chunk : List Nat) : Option LogLine :=
  let streamType := chunk.head?
  let data := trimChars ((chunk.drop 8).map decodeByte)
  match opts.filter with
  | some f => if f <:+: data then some (emitLine opts streamType data) else none
  | none => some (emitLine opts streamType data)

/-- Selector-1 frame with payload `err` followed by a newline. -/
def cexChunk : List Nat := [1, 0, 0, 0, 0, 0, 0, 0, 101, 114, 114, 10]

def cexPayload : List Char := (cexChunk.drop 8).map decodeByte

/-- C9 counterexample: the emitted message is the trimmed payload, not
the payload itself — the frame payload `err` plus newline is emitted as
`err`. -/
theorem processChunk_trims_payload_counterexample :
    processChunk {} cexChunk = some ⟨['e', 'r', 'r'], false, none⟩ ∧
    cexPayload = ['e', 'r', 'r', '\n'] ∧
    ¬ processChunk {} cexChunk = some ⟨cexPayload, false, none⟩ := by
  refine ⟨?_, ?_, ?_⟩ <;> decide

/-- C9 (amended): with timestamp mode off, a frame is emitted exactly
when no filter is set or the trimmed payload contains the filter as a
substring; the emitted message is the trimmed payload and `isError` is
true exactly when the first header byte is 2 (false for 1 or anything
else). -/
theorem processChunk_spec (opts : LogOptions) (chunk : List Nat)
    (hts : opts.timestamps = false) :
    (opts.filter = none →
      processChunk opts chunk =
        some ⟨trimChars ((chunk.drop 8).map decodeByte),
          decide (chunk.head? = some 2), none⟩) ∧
    (∀ f, opts.filter = some f →
      (¬ f <:+: trimChars ((chunk.drop 8).map decodeByte) →
        processChunk opts chunk = none) ∧
      (f <:+: trimChars ((chunk.drop 8).map decodeByte) →
        processChunk opts chunk =
          some ⟨trimChars ((chunk.drop 8).map decodeByte),
            decide (chunk.head? = some 2), none⟩)) := by
  constructor
  · intro hf
    unfold processChunk emitLine
    rw [hf, hts]
    simp
  · intro f hf
    constructor
    · intro hni
      unfold processChunk
      rw [hf]
      simp only [if_neg hni]
    · intro hi
      unfold processChunk emitLine
      rw [hf, hts]
      simp only [if_pos hi, Bool.false_eq_true, if_false]

/-- Options with the filter `error` set. -/
def filterOpts : LogOptions := { filter := some ['e', 'r', 'r', 'o', 'r'] }

/-- Selector-2 frame whose payload `an error` contains the filter. -/
def hitChunk : List Nat :=
  [2, 0, 0, 0, 0, 0, 0, 0, 97, 110, 32, 101, 114, 114, 111, 114]

/-- Selector-1 frame whose payload `all good` does not contain it. -/
def missChunk : List Nat :=
  [1, 0, 0, 0, 0, 0, 0, 0, 97, 108, 108, 32, 103, 111, 111, 100]

theorem processChunk_spec_witness :
    processChunk filterOpts missChunk = none ∧
    processChunk filterOpts hitChunk =
      some ⟨['a', 'n', ' ', 'e', 'r', 'r', 'o', 'r'], true, none⟩ := by
  have hm := processChunk_spec filterOpts missChunk rfl
  have hh := processChunk_spec filterOpts hitChunk rfl
  constructor
  · exact (hm.2 ['e', 'r', 'r', 'o', 'r'] rfl).1 (by decide)
  · exact ((hh.2 ['e', 'r', 'r', 'o', 'r'] rfl).2 (by decide)).trans (by decide)

end LogStreamer
end Devflow
